import Mathlib

/-!
Verification of the `obsub` observer-pattern module (`src/obsub.py`).

The module has two classes:

* `event` — a descriptor wrapping a function.  On instance access it lazily
  attaches an empty handler list to the instance under the key
  `' ' + function.__name__` and returns a `signal` pairing the bound base
  function with a (shared, non-owning) reference to that list.  On class
  access it returns a wrapper that takes the instance explicitly.
* `signal` — holds the base function and the handler list;
  `connect` appends, `disconnect` does `list.remove` (first match, raising
  `ValueError` if absent), and `__call__` first calls the base function,
  then iterates over a snapshot `self.__event_handlers[:]` of the list,
  calling each handler with the identical arguments; the base function's
  return value is returned, handler return values are dropped.

We embed this shallowly.  Handlers are abstract values of a type `H`; the
only shared mutable state visible to the claims is the handler list, so the
behaviour of the base function and of each handler is a parameter that maps
the arguments and the current handler list to a new handler list plus a
value or an error (base) or an optional error (handlers).  Dispatch produces
a trace of calls so that order, multiplicity and argument identity can be
stated.  Instances are modelled as attribute maps from string keys to
handler lists, with Python `getattr`/`setattr` semantics.
-/

namespace Obsub

/-- A callee recorded in a dispatch trace: either the base function or a
registered handler. -/
inductive Callee (H : Type) where
  | base : Callee H
  | handler : H → Callee H
deriving DecidableEq, Repr

/-- The error raised by `list.remove` when the element is absent
(Python's `ValueError`). -/
inductive RemoveError where
  | valueError : RemoveError
deriving DecidableEq, Repr

variable {H A B E : Type}

/-- `signal.connect`: `self.__event_handlers.append(function)`. -/
def connect (hs : List H) (f : H) : List H :=
  hs ++ [f]

/-- `signal.disconnect`: `self.__event_handlers.remove(function)` — remove
the first element equal to `f`, or raise `ValueError` if none is. -/
def disconnect [DecidableEq H] (hs : List H) (f : H) :
    Except RemoveError (List H) :=
  match hs with
  | [] => Except.error RemoveError.valueError
  | x :: xs =>
      if x = f then Except.ok xs
      else
        match disconnect xs f with
        | Except.error e => Except.error e
        | Except.ok ys => Except.ok (x :: ys)

/-- The loop `for f in snapshot: f(*args, **kwargs)` of `signal.__call__`.
`hsem` gives each handler's behaviour: from the arguments and the current
handler list (the shared mutable state) it returns the new handler list and
`none`, or the state at the raise point and `some e` if the handler raises.
Returns the trace of handler calls made, the final handler list, and the
propagated error, if any. -/
def runHandlers (hsem : H → A → List H → List H × Option E) :
    List H → A → List H → List (H × A) × List H × Option E
  | [], _, st => ([], st, none)
  | f :: rest, args, st =>
      match hsem f args st with
      | (st1, some e) => ([(f, args)], st1, some e)
      | (st1, none) =>
          let r := runHandlers hsem rest args st1
          ((f, args) :: r.1, r.2)

/-- `signal.__call__`: run the base function first (it may raise — in
particular a signature mismatch on binding the arguments raises before any
handler runs), then iterate over a snapshot of the handler list taken after
the base function returned, calling every handler with the identical
arguments; return the base function's value.  `base` maps the arguments and
the current handler list to the new handler list and the returned value or
the raised error.  The result is the trace of calls, the final handler
list, and the returned value or propagated error. -/
def signalCall (base : A → List H → List H × Except E B)
    (hsem : H → A → List H → List H × Option E)
    (st : List H) (args : A) :
    List (Callee H × A) × List H × Except E B :=
  match base args st with
  | (st1, Except.error e) => ([(Callee.base, args)], st1, Except.error e)
  | (st1, Except.ok v) =>
      let r := runHandlers hsem st1 args st1
      ((Callee.base, args) :: r.1.map (fun p => (Callee.handler p.1, p.2)),
       r.2.1,
       match r.2.2 with
       | some e => Except.error e
       | none => Except.ok v)

/-- An instance's attribute dictionary, restricted to the attributes this
module touches: handler lists stored under string keys. -/
abbrev AttrMap (H : Type) : Type := List (String × List H)

/-- Python `getattr(instance, k)` on the modelled attributes. -/
def getAttr (inst : AttrMap H) (k : String) : Option (List H) :=
  match inst with
  | [] => none
  | (k', v) :: rest => if k' = k then some v else getAttr rest k

/-- Python `setattr(instance, k, v)`: rebind `k` if present, else add it. -/
def setAttr (inst : AttrMap H) (k : String) (v : List H) : AttrMap H :=
  match inst with
  | [] => [(k, v)]
  | (k', v') :: rest =>
      if k' = k then (k, v) :: rest else (k', v') :: setAttr rest k v

/-- The storage key derived in `event.__init__`: `' ' + function.__name__`. -/
def eventKey (name : String) : String :=
  " " ++ name

/-- The instance branch of `event.__get__`: fetch the handler list stored
under the derived key, attaching a fresh empty one on the first access.
Returns the (possibly updated) instance and the handler list the produced
signal references. -/
def eventGet (name : String) (inst : AttrMap H) : AttrMap H × List H :=
  match getAttr inst (eventKey name) with
  | some hs => (inst, hs)
  | none => (setAttr inst (eventKey name) [], [])

/-- `instance.eventname.connect(f)`: access the event on the instance, then
append `f` to the shared handler list.  The in-place list mutation is
modelled by writing the list back under the derived key. -/
def boundConnect (name : String) (f : H) (inst : AttrMap H) : AttrMap H :=
  let p := eventGet name inst
  setAttr p.1 (eventKey name) (connect p.2 f)

/-- `instance.eventname.disconnect(f)`: access the event on the instance,
then `list.remove(f)` on the shared handler list.  On `ValueError` the
exception propagates and the list is left as it was (only the lazy
attribute creation from the access persists). -/
def boundDisconnect [DecidableEq H] (name : String) (f : H)
    (inst : AttrMap H) : AttrMap H × Except RemoveError Unit :=
  let p := eventGet name inst
  match disconnect p.2 f with
  | Except.error e => (p.1, Except.error e)
  | Except.ok hs' => (setAttr p.1 (eventKey name) hs', Except.ok ())

/-- `instance.eventname(*args, **kwargs)`: access the event on the instance
and call the resulting signal.  `base` is the behaviour of
`functools.partial(self.__function, instance)`.  Returns the call trace,
the updated instance, and the value or error. -/
def boundCall (name : String) (base : A → List H → List H × Except E B)
    (hsem : H → A → List H → List H × Option E)
    (inst : AttrMap H) (args : A) :
    List (Callee H × A) × AttrMap H × Except E B :=
  let p := eventGet name inst
  let r := signalCall base hsem p.2 args
  (r.1, setAttr p.1 (eventKey name) r.2.1, r.2.2)

/-- The class-access branch of `event.__get__` (`instance is None`)
followed by the returned wrapper's call:
`wrapper(instance, *args, **kwargs)` evaluates
`self.__get__(instance, owner)(*args, **kwargs)`, i.e. it performs the
instance access and then calls the resulting signal. -/
def classGetCall (name : String) (base : A → List H → List H × Except E B)
    (hsem : H → A → List H → List H × Option E)
    (inst : AttrMap H) (args : A) :
    List (Callee H × A) × AttrMap H × Except E B :=
  let p := eventGet name inst
  let r := signalCall base hsem p.2 args
  (r.1, setAttr p.1 (eventKey name) r.2.1, r.2.2)

/-! Concrete base-function and handler behaviours used to evaluate the
theorems on small inputs (handlers are numbered by `Nat`, the arguments
and the base function's return value are a `Nat`, errors are `Unit`). -/

/-- A base function that neither mutates the handler list nor raises and
returns `7`. -/
def base0 : Nat → List Nat → List Nat × Except Unit Nat :=
  fun _ s => (s, Except.ok 7)

/-- A base function that raises (e.g. a signature mismatch on binding the
arguments). -/
def baseErr0 : Nat → List Nat → List Nat × Except Unit Nat :=
  fun _ s => (s, Except.error ())

/-- Handlers that do nothing. -/
def hsem0 : Nat → Nat → List Nat → List Nat × Option Unit :=
  fun _ _ s => (s, none)

/-- Handler `2` raises; all others do nothing. -/
def hsemErr2 : Nat → Nat → List Nat → List Nat × Option Unit :=
  fun f _ s => (s, if f = 2 then some () else none)

/-- Handler `1` disconnects itself during its own invocation; all others do
nothing. -/
def hsemDrop1 : Nat → Nat → List Nat → List Nat × Option Unit :=
  fun f _ s => (if f = 1 then s.erase 1 else s, none)

/-- Every handler connects handler `5` during its invocation. -/
def hsemAdds5 : Nat → Nat → List Nat → List Nat × Option Unit :=
  fun _ _ s => (connect s 5, none)

end Obsub

namespace Obsub

variable {H A B E : Type}

/-- A run over a snapshot with handlers that never raise calls exactly the
snapshot's handlers, in order, each with the given arguments, and ends with
no error. -/
theorem runHandlers_of_noerror (hsem : H → A → List H → List H × Option E)
    (args : A) (snap : List H) (st : List H)
    (hok : ∀ f s, (hsem f args s).2 = none) :
    (runHandlers hsem snap args st).1 = snap.map (fun f => (f, args)) ∧
      (runHandlers hsem snap args st).2.2 = none := by
  induction snap generalizing st with
  | nil => simp [runHandlers]
  | cons f rest ih =>
      have h2 := hok f st
      rcases h : hsem f args st with ⟨st1, err⟩
      rw [h] at h2
      simp only at h2
      subst h2
      simp only [runHandlers, h]
      exact ⟨by simp [(ih st1).1], (ih st1).2⟩

/-- Handlers that neither raise nor mutate the list leave it unchanged. -/
theorem runHandlers_of_pure (hsem : H → A → List H → List H × Option E)
    (args : A) (snap : List H) (st : List H)
    (hpure : ∀ f s, hsem f args s = (s, none)) :
    runHandlers hsem snap args st =
      (snap.map (fun f => (f, args)), st, none) := by
  induction snap generalizing st with
  | nil => simp [runHandlers]
  | cons f rest ih =>
      simp [runHandlers, hpure f st, ih st]

/-- Every handler called during a run comes from the snapshot. -/
theorem runHandlers_mem (hsem : H → A → List H → List H × Option E)
    (args : A) (snap : List H) (st : List H) (f : H) (a : A)
    (hmem : (f, a) ∈ (runHandlers hsem snap args st).1) : f ∈ snap := by
  induction snap generalizing st with
  | nil => simp [runHandlers] at hmem
  | cons g rest ih =>
      rcases h : hsem g args st with ⟨st1, err⟩
      cases err with
      | some e =>
          rw [runHandlers, h] at hmem
          simp at hmem
          simp [hmem.1]
      | none =>
          rw [runHandlers, h] at hmem
          simp only [List.mem_cons, Prod.mk.injEq] at hmem
          rcases hmem with ⟨hf, _⟩ | hmem
          · simp [hf]
          · exact List.mem_cons_of_mem _ (ih st1 hmem)

/-- If the run ends in an error, the snapshot splits as `l1 ++ f :: l2`
where the calls made are exactly `l1` then `f` (which raised) and nothing
from `l2` was called. -/
theorem runHandlers_error (hsem : H → A → List H → List H × Option E)
    (args : A) (snap : List H) (st : List H) (e : E)
    (herr : (runHandlers hsem snap args st).2.2 = some e) :
    ∃ l1 f l2, snap = l1 ++ f :: l2 ∧
      (runHandlers hsem snap args st).1 =
        (l1 ++ [f]).map (fun h => (h, args)) := by
  induction snap generalizing st with
  | nil => simp [runHandlers] at herr
  | cons g rest ih =>
      rcases h : hsem g args st with ⟨st1, err⟩
      cases err with
      | some e' =>
          refine ⟨[], g, rest, rfl, ?_⟩
          rw [runHandlers, h]
          simp
      | none =>
          rw [runHandlers, h] at herr
          simp only at herr
          obtain ⟨l1, f, l2, hsnap, htr⟩ := ih st1 herr
          refine ⟨g :: l1, f, l2, by simp [hsnap], ?_⟩
          rw [runHandlers, h]
          simp [htr]

/-- With a base function that returns normally and handlers that neither
raise nor mutate, a call produces the full trace, leaves the list as it
was and returns the base function's value. -/
theorem signalCall_pure (base : A → List H → List H × Except E B)
    (hsem : H → A → List H → List H × Option E)
    (st : List H) (args : A) (v : B)
    (hbase : base args st = (st, Except.ok v))
    (hpure : ∀ f s, hsem f args s = (s, none)) :
    signalCall base hsem st args =
      ((Callee.base, args) :: st.map (fun f => (Callee.handler f, args)),
        st, Except.ok v) := by
  simp [signalCall, hbase, runHandlers_of_pure hsem args st st hpure]

/-- Every handler appearing in a call's trace is a member of the snapshot,
i.e. of the handler list as the base function left it. -/
theorem mem_signalCall_trace (base : A → List H → List H × Except E B)
    (hsem : H → A → List H → List H × Option E)
    (st : List H) (args a : A) (g : H)
    (hmem : (Callee.handler g, a) ∈ (signalCall base hsem st args).1) :
    g ∈ (base args st).1 := by
  rcases hb : base args st with ⟨st1, res⟩
  simp only [signalCall, hb] at hmem
  simp only
  cases res with
  | error e => simp at hmem
  | ok v =>
      simp only [List.mem_cons, List.mem_map, Prod.mk.injEq] at hmem
      rcases hmem with ⟨heq, _⟩ | ⟨p, hp, heq, ha⟩
      · exact absurd heq (by simp)
      · have : p.1 = g := by
          cases heq' : (Callee.handler p.1 : Callee H) with
          | base => rw [heq'] at heq; exact absurd heq (by simp)
          | handler x =>
              rw [heq'] at heq
              cases heq
              exact (Callee.handler.injEq .. ▸ congrArg id heq').symm ▸ rfl
        subst this
        exact runHandlers_mem hsem args st1 st1 p.1 a (ha ▸ hp)

/-- `getattr` right after `setattr` at the same key sees the stored value. -/
theorem getAttr_setAttr (inst : AttrMap H) (k : String) (v : List H) :
    getAttr (setAttr inst k v) k = some v := by
  induction inst with
  | nil => simp [setAttr, getAttr]
  | cons p rest ih =>
      rcases p with ⟨k', v'⟩
      by_cases h : k' = k
      · simp [setAttr, getAttr, h]
      · simp [setAttr, getAttr, h, ih]

/-- Accessing an event attached by a previous `setattr` under the derived
key yields exactly the stored handler list. -/
theorem eventGet_setAttr (name : String) (inst : AttrMap H) (hs : List H) :
    eventGet name (setAttr inst (eventKey name) hs) =
      (setAttr inst (eventKey name) hs, hs) := by
  simp [eventGet, getAttr_setAttr]

/-- Event access is stable: accessing again on the instance returned by an
access changes nothing and yields the same handler list. -/
theorem eventGet_stable (name : String) (inst : AttrMap H) :
    eventGet name (eventGet name inst).1 = eventGet name inst := by
  rcases h : getAttr inst (eventKey name) with _ | hs
  · simp [eventGet, h, getAttr_setAttr]
  · simp [eventGet, h]

/-- Accessing the event after a connect sees the previous handler list with
the new handler appended. -/
theorem eventGet_boundConnect (name : String) (f : H) (inst : AttrMap H) :
    eventGet name (boundConnect name f inst) =
      (boundConnect name f inst, connect (eventGet name inst).2 f) :=
  eventGet_setAttr name (eventGet name inst).1 (connect (eventGet name inst).2 f)

/-- `list.remove` on a list not containing the element raises `ValueError`. -/
theorem disconnect_of_not_mem [DecidableEq H] (hs : List H) (f : H)
    (hf : f ∉ hs) :
    disconnect hs f = Except.error RemoveError.valueError := by
  induction hs with
  | nil => rfl
  | cons x xs ih =>
      simp only [List.mem_cons, not_or] at hf
      have hx : ¬x = f := fun h => hf.1 h.symm
      simp [disconnect, hx, ih hf.2]

/-- `list.remove` removes exactly the first occurrence of the element. -/
theorem disconnect_append_cons [DecidableEq H] (l1 l2 : List H) (f : H)
    (hf : f ∉ l1) :
    disconnect (l1 ++ f :: l2) f = Except.ok (l1 ++ l2) := by
  induction l1 with
  | nil => simp [disconnect]
  | cons x xs ih =>
      simp only [List.mem_cons, not_or] at hf
      have hx : ¬x = f := fun h => hf.1 h.symm
      simp [disconnect, hx, ih hf.2]

/-- Counting a handler's calls in a full trace counts its occurrences in
the handler list. -/
theorem count_handler_trace [DecidableEq H] [DecidableEq A]
    (l : List H) (f : H) (a : A) :
    ((Callee.base, a) ::
        l.map (fun g => ((Callee.handler g, a) : Callee H × A))).count
      (Callee.handler f, a) = l.count f := by
  have hc : ∀ m : List H,
      (m.map (fun g => ((Callee.handler g, a) : Callee H × A))).count
        (Callee.handler f, a) = m.count f := by
    intro m
    induction m with
    | nil => rfl
    | cons x xs ih =>
        simp only [List.map_cons, List.count_cons, ih]
        by_cases h : x = f
        · simp [h]
        · simp [beq_iff_eq, h]
  rw [List.count_cons, hc]
  simp [beq_iff_eq]

/-! The claims. -/

/-- C1: invoking a signal with registered handlers `h1, ..., hn` first
calls the base function once with the given arguments, then calls the
handlers in registration order, each exactly once, each with the identical
arguments; the overall return value is the base function's return value
and handler return values are discarded (handlers contribute nothing to
the result). -/
theorem dispatch_calls_base_then_handlers_in_order
    (base : A → List H → List H × Except E B)
    (hsem : H → A → List H → List H × Option E)
    (st : List H) (args : A) (v : B)
    (hbase : base args st = (st, Except.ok v))
    (hpure : ∀ f s, hsem f args s = (s, none)) :
    signalCall base hsem st args =
      ((Callee.base, args) :: st.map (fun f => (Callee.handler f, args)),
        st, Except.ok v) :=
  signalCall_pure base hsem st args v hbase hpure

/-- Witness for C1: three handlers run after the base function, in order,
each once, with the call's argument; the result is the base function's
value `7`. -/
theorem dispatch_order_witness :
    signalCall base0 hsem0 [1, 2, 3] 0 =
      ([(Callee.base, 0), (Callee.handler 1, 0), (Callee.handler 2, 0),
          (Callee.handler 3, 0)],
        [1, 2, 3], Except.ok 7) :=
  dispatch_calls_base_then_handlers_in_order base0 hsem0 [1, 2, 3] 0 7 rfl
    (fun _ _ => rfl)

/-- C2: if the base function raises (e.g. a signature mismatch on binding
the arguments), the error propagates at once and no handler is invoked; if
a handler raises, the error propagates at once and the calls made are
exactly the base call plus the handlers up to and including the raising
one — every later handler in the dispatch order stays uninvoked. -/
theorem error_propagation (base : A → List H → List H × Except E B)
    (hsem : H → A → List H → List H × Option E)
    (st : List H) (args : A) :
    (∀ st1 e, base args st = (st1, Except.error e) →
        signalCall base hsem st args =
          ([(Callee.base, args)], st1, Except.error e)) ∧
      (∀ st1 v e, base args st = (st1, Except.ok v) →
        (signalCall base hsem st args).2.2 = Except.error e →
        ∃ l1 f l2, st1 = l1 ++ f :: l2 ∧
          (signalCall base hsem st args).1 =
            (Callee.base, args) ::
              (l1 ++ [f]).map (fun h => (Callee.handler h, args))) := by
  constructor
  · intro st1 e hb
    simp [signalCall, hb]
  · intro st1 v e hb herr
    rcases hr : runHandlers hsem st1 args st1 with ⟨tr, st2, err⟩
    cases err with
    | none => simp [signalCall, hb, hr] at herr
    | some e' =>
        have herr2 : (runHandlers hsem st1 args st1).2.2 = some e' := by
          rw [hr]
        obtain ⟨l1, f, l2, hsnap, htr⟩ :=
          runHandlers_error hsem args st1 st1 e' herr2
        refine ⟨l1, f, l2, hsnap, ?_⟩
        rw [hr] at htr
        simp only at htr
        simp [signalCall, hb, hr, htr]

/-- Witness for C2: a raising base function yields only the base call and
its error; handler `2` raising leaves handler `3` uninvoked. -/
theorem error_propagation_witness :
    signalCall baseErr0 hsem0 [1] 0 =
        ([(Callee.base, 0)], [1], Except.error ()) ∧
      ∃ l1 f l2, ([1, 2, 3] : List Nat) = l1 ++ f :: l2 ∧
        (signalCall base0 hsemErr2 [1, 2, 3] 0).1 =
          (Callee.base, 0) :: (l1 ++ [f]).map (fun h => (Callee.handler h, 0)) :=
  ⟨(error_propagation baseErr0 hsem0 [1] 0).1 [1] () rfl,
    (error_propagation base0 hsemErr2 [1, 2, 3] 0).2 [1, 2, 3] 7 () rfl rfl⟩

/-- C3: per-instance isolation — a handler connected only to instance B's
event is never invoked when instance A's event is invoked, because each
(instance, event) pair has its own handler list under the derived key. -/
theorem per_instance_isolation (name : String)
    (base : A → List H → List H × Except E B)
    (hsem : H → A → List H → List H × Option E)
    (instA instB : AttrMap H) (h g : H) (args : A)
    (hbase : ∀ s, (base args s).1 = s)
    (hg : g ∉ (eventGet name (boundConnect name h instA)).2) :
    g ∈ (eventGet name (boundConnect name g instB)).2 ∧
      (Callee.handler g, args) ∉
        (boundCall name base hsem (boundConnect name h instA) args).1 := by
  constructor
  · rw [eventGet_boundConnect]
    simp [connect]
  · intro hmem
    have hmem' : (Callee.handler g, args) ∈
        (signalCall base hsem
          (eventGet name (boundConnect name h instA)).2 args).1 := hmem
    have hin := mem_signalCall_trace base hsem
      (eventGet name (boundConnect name h instA)).2 args args g hmem'
    rw [hbase] at hin
    exact hg hin

/-- Witness for C3: handler `9`, connected only to instance B's event,
is absent from the dispatch of instance A's event (which has handler `1`
connected). -/
theorem per_instance_isolation_witness :
    (9 : Nat) ∈ (eventGet "p" (boundConnect "p" 9 ([] : AttrMap Nat))).2 ∧
      (Callee.handler 9, 0) ∉
        (boundCall "p" base0 hsem0 (boundConnect "p" 1 ([] : AttrMap Nat)) 0).1 :=
  per_instance_isolation "p" base0 hsem0 [] [] 1 9 0 (fun _ => rfl) (by decide)

/-- C4: the class-level unbound call `Class.eventname(instance, args)` has
identical observable behaviour (trace of base and handler calls, updated
instance state, and result or error) to the bound call
`instance.eventname(args)`. -/
theorem unbound_call_equivalent (name : String)
    (base : A → List H → List H × Except E B)
    (hsem : H → A → List H → List H × Option E)
    (inst : AttrMap H) (args : A) :
    classGetCall name base hsem inst args = boundCall name base hsem inst args :=
  rfl

/-- C5: dispatch iterates over a snapshot, so however the handlers mutate
the handler list during their own invocation, the calls made in the current
dispatch are exactly the snapshot's handlers; the mutations are visible to
the next dispatch, which runs exactly the mutated list. -/
theorem snapshot_semantics (base : A → List H → List H × Except E B)
    (hsem : H → A → List H → List H × Option E)
    (st : List H) (args : A) (v : B)
    (hbase : ∀ s, base args s = (s, Except.ok v))
    (hok : ∀ f s, (hsem f args s).2 = none) :
    (signalCall base hsem st args).1 =
        (Callee.base, args) :: st.map (fun f => (Callee.handler f, args)) ∧
      (signalCall base hsem (signalCall base hsem st args).2.1 args).1 =
        (Callee.base, args) ::
          ((signalCall base hsem st args).2.1).map
            (fun f => (Callee.handler f, args)) := by
  have key : ∀ s : List H, (signalCall base hsem s args).1 =
      (Callee.base, args) :: s.map (fun f => (Callee.handler f, args)) := by
    intro s
    have h1 := runHandlers_of_noerror hsem args s s hok
    rcases hr : runHandlers hsem s args s with ⟨tr, st2, err⟩
    rw [hr] at h1
    simp only at h1
    simp [signalCall, hbase s, hr, h1.1]
  exact ⟨key st, key _⟩

/-- Witness for C5: handler `1` disconnects itself during its own
invocation; the first dispatch still runs both `1` and `2`, the second
dispatch runs only `2`. -/
theorem snapshot_semantics_witness :
    (signalCall base0 hsemDrop1 [1, 2] 0).1 =
        [(Callee.base, 0), (Callee.handler 1, 0), (Callee.handler 2, 0)] ∧
      (signalCall base0 hsemDrop1
          (signalCall base0 hsemDrop1 [1, 2] 0).2.1 0).1 =
        [(Callee.base, 0), (Callee.handler 2, 0)] :=
  snapshot_semantics base0 hsemDrop1 [1, 2] 0 7 (fun _ => rfl) (fun _ _ => rfl)

/-- C6: `connect` performs no duplicate check — connecting a handler twice
registers it twice and a dispatch then runs it twice (two more times than
its prior multiplicity) — and `disconnect` removes exactly the first
occurrence equal to the given handler, leaving later duplicates
registered. -/
theorem no_dedup_and_first_match [DecidableEq H] [DecidableEq A]
    (base : A → List H → List H × Except E B)
    (hsem : H → A → List H → List H × Option E)
    (hs l1 l2 : List H) (f : H) (args : A) (v : B)
    (hbase : base args (connect (connect hs f) f) =
        (connect (connect hs f) f, Except.ok v))
    (hpure : ∀ g s, hsem g args s = (s, none))
    (hf : f ∉ l1) :
    (signalCall base hsem (connect (connect hs f) f) args).1.count
        (Callee.handler f, args) = hs.count f + 2 ∧
      disconnect (l1 ++ f :: l2) f = Except.ok (l1 ++ l2) := by
  refine ⟨?_, disconnect_append_cons l1 l2 f hf⟩
  rw [signalCall_pure base hsem _ args v hbase hpure]
  rw [count_handler_trace]
  simp [connect]

/-- Witness for C6: connecting handler `5` twice more to a list already
holding it once makes it run three times; removing `5` from
`[1, 2, 5, 5, 3]` deletes only the first of the two occurrences. -/
theorem no_dedup_witness :
    (signalCall base0 hsem0 (connect (connect [5] 5) 5) 0).1.count
        (Callee.handler 5, 0) = 3 ∧
      disconnect ([1, 2] ++ 5 :: [5, 3]) 5 = Except.ok ([1, 2] ++ [5, 3]) :=
  no_dedup_and_first_match base0 hsem0 [5] [1, 2] [5, 3] 5 0 7 rfl
    (fun _ _ => rfl) (by decide)

/-- C7: disconnecting a handler that is not in the signal's handler list
fails with the not-found condition (`ValueError`) and leaves the handler
list unchanged — the same elements in the same order. -/
theorem disconnect_absent_fails [DecidableEq H] (name : String) (f : H)
    (inst : AttrMap H) (hf : f ∉ (eventGet name inst).2) :
    (boundDisconnect name f inst).2 =
        Except.error RemoveError.valueError ∧
      (eventGet name (boundDisconnect name f inst).1).2 =
        (eventGet name inst).2 := by
  have hd := disconnect_of_not_mem (eventGet name inst).2 f hf
  constructor
  · simp [boundDisconnect, hd]
  · simp [boundDisconnect, hd, eventGet_stable]

/-- Witness for C7: removing handler `4` from a list holding `[1, 2]`
raises the not-found error and the list still reads `[1, 2]`. -/
theorem disconnect_absent_witness :
    (boundDisconnect " p" 4 ([(" " ++ " p", [1, 2])] : AttrMap Nat)).2 =
        Except.error RemoveError.valueError ∧
      (eventGet " p" (boundDisconnect " p" 4
          ([(" " ++ " p", [1, 2])] : AttrMap Nat)).1).2 = [1, 2] :=
  disconnect_absent_fails " p" 4 [(" " ++ " p", [1, 2])] (by decide)

/-- C8: the first instance-level access for an event attaches a new empty
handler list to the instance under the derived key; repeated accesses
observe that same underlying list without further change; and a connect
performed through one access is observed by an invocation performed
through a later access. -/
theorem lazy_attach_and_sharing (name : String) (f : H)
    (base : A → List H → List H × Except E B)
    (hsem : H → A → List H → List H × Option E)
    (inst : AttrMap H) (args : A) (v : B)
    (hnew : getAttr inst (eventKey name) = none)
    (hbase : ∀ s, base args s = (s, Except.ok v))
    (hpure : ∀ g s, hsem g args s = (s, none)) :
    (getAttr (eventGet name inst).1 (eventKey name) = some [] ∧
        (eventGet name inst).2 = []) ∧
      eventGet name (eventGet name inst).1 = eventGet name inst ∧
      (Callee.handler f, args) ∈
        (boundCall name base hsem (boundConnect name f inst) args).1 := by
  refine ⟨⟨?_, ?_⟩, eventGet_stable name inst, ?_⟩
  · simp [eventGet, hnew, getAttr_setAttr]
  · simp [eventGet, hnew]
  · have hlist := eventGet_boundConnect name f inst
    simp [boundCall, hlist,
      signalCall_pure base hsem _ args v (hbase _) hpure, connect]

/-- Witness for C8: on a fresh instance the first access stores `some []`,
repeated access is stable, and handler `3` connected through one access is
invoked by a call through a later access. -/
theorem lazy_sharing_witness :
    (getAttr (eventGet "p" ([] : AttrMap Nat)).1 (eventKey "p") = some [] ∧
        (eventGet "p" ([] : AttrMap Nat)).2 = []) ∧
      eventGet "p" (eventGet "p" ([] : AttrMap Nat)).1 =
        eventGet "p" ([] : AttrMap Nat) ∧
      (Callee.handler 3, 0) ∈
        (boundCall "p" base0 hsem0 (boundConnect "p" 3 ([] : AttrMap Nat)) 0).1 :=
  lazy_attach_and_sharing "p" 3 base0 hsem0 [] 0 7 rfl (fun _ => rfl)
    (fun _ _ => rfl)

/-- C9: the snapshot is taken only after the base function returns — a
handler the base function itself connects during the current invocation is
invoked in that same dispatch, whereas with a non-mutating base function a
handler not in the list at snapshot time (e.g. one connected by another
handler during dispatch) is not invoked in that dispatch. -/
theorem snapshot_taken_after_base (g : H) (st : List H) (args : A) (v : B)
    (hsem : H → A → List H → List H × Option E)
    (hpure : ∀ f s, hsem f args s = (s, none)) (hg : g ∉ st) :
    (Callee.handler g, args) ∈
        (signalCall (fun (_ : A) (s : List H) => (connect s g, Except.ok v))
          hsem st args).1 ∧
      ∀ hsem2 : H → A → List H → List H × Option E,
        (Callee.handler g, args) ∉
          (signalCall (fun (_ : A) (s : List H) => (s, Except.ok v))
            hsem2 st args).1 := by
  constructor
  · rw [show signalCall (fun (_ : A) (s : List H) => (connect s g, Except.ok v))
          hsem st args =
        ((Callee.base, args) ::
          (connect st g).map (fun f => (Callee.handler f, args)),
          connect st g, Except.ok v) from by
        simp [signalCall, runHandlers_of_pure hsem args _ _ hpure]]
    simp [connect]
  · intro hsem2 hmem
    have hin := mem_signalCall_trace
      (fun (_ : A) (s : List H) => (s, Except.ok v)) hsem2 st args args g hmem
    exact hg hin

/-- Witness for C9: a base function connecting handler `5` makes `5` run in
the same dispatch; a handler connecting `5` (with a non-mutating base
function) does not make `5` run in that dispatch. -/
theorem snapshot_after_base_witness :
    (Callee.handler 5, 0) ∈
        (signalCall (fun (_ : Nat) (s : List Nat) => (connect s 5, Except.ok 7))
          hsem0 [1] 0).1 ∧
      (Callee.handler 5, 0) ∉
        (signalCall (fun (_ : Nat) (s : List Nat) => (s, Except.ok 7))
          hsemAdds5 [1] 0).1 :=
  ⟨(snapshot_taken_after_base 5 [1] 0 7 hsem0 (fun _ _ => rfl) (by decide)).1,
    (snapshot_taken_after_base 5 [1] 0 7 hsem0 (fun _ _ => rfl)
      (by decide)).2 hsemAdds5⟩

/-- C10: `connect` is total and validates nothing — for every handler
value it appends exactly one entry at the end of the instance's handler
list, leaving all previously registered entries and their relative order
unchanged. -/
theorem connect_total_appends (name : String) (f : H) (inst : AttrMap H) :
    (eventGet name (boundConnect name f inst)).2 =
      (eventGet name inst).2 ++ [f] := by
  rw [eventGet_boundConnect]
  simp [connect]

end Obsub
